import Mathlib

/-!
Shallow embedding of the producer-side streaming core in
`src/cpp/src/stream.cpp` (classes `SegmentsManifest`, `LiveMetadata`,
`VideoStreamImpl2`), together with proofs settling the frozen claims
about it.  NDN names are lists of typed components, data packets are
records, machine integers are `Nat` (with explicit wrap-around where the
source's `size_t` arithmetic can wrap), and the external collaborators
(codec, Reed-Solomon encoder, SHA-256, clock, pending-interest table)
enter as explicit inputs of each operation.
-/

namespace NdnRtc

/-- Components of an NDN name, mirroring the `ndn::Name::Component`
constructors used by `stream.cpp`: plain string components (`append`),
sequence numbers (`appendSequenceNumber`), segment numbers
(`appendSegment`) and timestamps (`appendTimestamp`). -/
inductive NameComp where
  | str (s : String)
  | seqNo (n : Nat)
  | seg (n : Nat)
  | tstamp (t : Nat)
deriving DecidableEq, Repr

/-- An NDN name is a list of components (`ndn::Name`). -/
abbrev NdnName := List NameComp

/-- Signature state of a data packet.  `sign(d, true)` in the source
installs a `DigestSha256Signature`, `sign(d)` signs with the keychain;
a packet on which `sign` was never called stays `unsigned`. -/
inductive SigType where
  | unsigned
  | digestSha256
  | keychain
deriving DecidableEq, Repr

/-- The protobuf `FrameMeta` record filled in `generateFrameMeta`
(stream.cpp lines 499-511). -/
structure FrameMeta where
  captureSeconds : Nat
  captureNanos : Nat
  paritySize : Nat
  gopNumber : Nat
  gopPosition : Nat
  isKey : Bool
  generationDelay : Nat
deriving DecidableEq, Repr

/-- Content of a data packet.  Wire encodings of structured contents
(delegation sets, protobuf records) are kept as the structures
themselves; raw byte contents (segments, manifest) are byte lists.
The stream meta's protobuf (width set twice, no height - stream.cpp
lines 386-389) and the live meta's estimator snapshot are kept abstract:
no claim refers to their field values. -/
inductive Content where
  | bytes (bs : List Nat)
  | delegations (ds : List (Nat × NdnName))
  | frameMetaInfo (contentType : String) (timestampMs : Nat)
      (hasSegments : Bool) (meta : FrameMeta)
  | streamMeta
  | liveMeta
deriving DecidableEq, Repr

/-- An `ndn::Data` packet as `stream.cpp` populates one: name, optional
freshness period (ms), optional final-block-id, content, and the
signature installed on it. -/
structure DataPacket where
  name : NdnName
  freshness : Option Nat
  finalBlockId : Option NameComp
  content : Content
  sig : SigType
deriving DecidableEq, Repr

/-- Raw bytes of a packet's content (empty for structured contents). -/
def Content.asBytes : Content → List Nat
  | .bytes bs => bs
  | _ => []

/-- Models a C++ read of `len` bytes starting at `buf + off`
(`Data::setContent(ptr, len)`, `Blob(ptr, len)`): the bytes inside the
buffer, then - where the source would read past the buffer's end, which
is undefined behaviour there - unspecified bytes, modelled as zeros.
The result always has length `len`, as the C++ copy does. -/
def readBytes (buf : List Nat) (off len : Nat) : List Nat :=
  (buf.drop off).take len ++ List.replicate (len - ((buf.drop off).take len).length) 0

/-- The value of `(uint64_t)-1`, the sentinel sequence number used for
`lastFramePrefix_` at construction (stream.cpp line 287). -/
def UINT64MAX : Nat := 2 ^ 64 - 1

/-- Models `Name::Component::fromSegment(n - 1)` where `n` is a
`size_t`: subtraction wraps modulo `2^64` when `n = 0`
(stream.cpp lines 415-416). -/
def fromSegmentSub1 (n : Nat) : NameComp :=
  .seg ((n + UINT64MAX) % 2 ^ 64)

/-- Content built by the `SegmentsManifest` constructor (stream.cpp
lines 152-169) from the implicit digests of the frame's segments: a
buffer of `32 * n` zero bytes into which each digest is copied at the
write pointer `ptr`.  The source never advances `ptr` inside the loop,
so every digest lands at offset 0, each copy overwriting the previous
one. -/
def manifestPayload (digests : List (List Nat)) : List Nat :=
  digests.foldl (fun buf d => d ++ buf.drop d.length)
    (List.replicate (32 * digests.length) 0)

/-- Models `SegmentsManifest::hasData` (stream.cpp lines 171-186): scan
the manifest content in steps of `digest.length` bytes and compare each
window with the digest.  The while loop runs once per started window,
reading `digest.length` bytes from each offset. -/
def manifestHasData (content digest : List Nat) : Bool :=
  (List.range ((content.length + digest.length - 1) / digest.length)).any
    (fun i => readBytes content (i * digest.length) digest.length == digest)

/-- The configuration relevant to `VideoStreamImpl2`:
`VideoStream::Settings` (segment size, FEC flag, memory-cache flags) and
the codec settings it reads (`fps`, `gop`, frame dimensions). -/
structure Settings where
  segmentSize : Nat
  useFec : Bool
  storeInMemCache : Bool
  hasMemCache : Bool
  fps : Nat
  gopLen : Nat
  width : Nat
  height : Nat
deriving DecidableEq, Repr

/-- The `_Freshness` struct of `VideoStreamImpl2` (all in ms). -/
structure FreshnessPlan where
  sample : Nat
  keySample : Nat
  gop : Nat
  latest : Nat
  live : Nat
  meta : Nat
deriving DecidableEq, Repr

/-- The freshness plan derived once in the constructor (stream.cpp
lines 279-284): `sample = 1000 / fps` (integer division of `uint32_t`),
`keySample = gop = gopLen * sample`, `latest = sample`, `live = gop`,
`meta = 4000`. -/
def mkFreshness (s : Settings) : FreshnessPlan :=
  { sample := 1000 / s.fps
    keySample := s.gopLen * (1000 / s.fps)
    gop := s.gopLen * (1000 / s.fps)
    latest := 1000 / s.fps
    live := s.gopLen * (1000 / s.fps)
    meta := 4000 }

/-- Mutable state of `VideoStreamImpl2` that the claims touch.  The
statistics storage and the `LiveMetadata` estimators are not modelled:
no claim refers to their values. -/
structure StreamState where
  settings : Settings
  streamPfx : NdnName
  freshness : FreshnessPlan
  lastFramePfx : NdnName
  lastGopPfx : NdnName
  frameSeq : Nat
  gopPos : Nat
  gopSeq : Nat
  lastPublishEpochMs : Nat
  thisCycleMonotonicNs : Nat
  lastCycleMonotonicNs : Nat
  queued : List DataPacket
deriving DecidableEq, Repr

/-- The stream meta packet built by `addMeta` (stream.cpp lines
377-400): name `streamPrefix/_meta`, freshness `meta` (4000 ms),
protobuf stream-meta content, keychain-signed. -/
def streamMetaPacket (pfx : NdnName) (fr : FreshnessPlan) : DataPacket :=
  { name := pfx ++ [.str "_meta"]
    freshness := some fr.meta
    finalBlockId := none
    content := .streamMeta
    sig := .keychain }

/-- State after the `VideoStreamImpl2` constructor (stream.cpp lines
261-299): the stream prefix is `basePrefix/timestamp/streamName`,
counters start at 0, `lastFramePrefix_` is the sentinel
`streamPrefix/<seq (uint64_t)-1>`, `lastGopPrefix_` is the default
(empty) name, and `addMeta` has queued the stream meta packet.
`lastPublishEpochMs_` is left uninitialized by the source; it is
modelled as 0. -/
def initState (s : Settings) (basePfx : NdnName) (constructionMs : Nat)
    (streamName : String) : StreamState :=
  let pfx := basePfx ++ [.tstamp constructionMs, .str streamName]
  { settings := s
    streamPfx := pfx
    freshness := mkFreshness s
    lastFramePfx := pfx ++ [.seqNo UINT64MAX]
    lastGopPfx := []
    frameSeq := 0
    gopPos := 0
    gopSeq := 0
    lastPublishEpochMs := 0
    thisCycleMonotonicNs := 0
    lastCycleMonotonicNs := 0
    queued := [streamMetaPacket pfx (mkFreshness s)] }

/-- An encoded frame as delivered by the codec's encoded callback:
`frame.type_` (key or delta) and the bitstream bytes
(`frame.data_` / `frame.length_`). -/
structure EncodedFrame where
  isKey : Bool
  data : List Nat
deriving DecidableEq, Repr

/-- Models `nDataSegments = frame.length_ / payloadSegmentSize +
(frame.length_ % payloadSegmentSize ? 1 : 0)` (stream.cpp line 409). -/
def nDataSegments (L S : Nat) : Nat :=
  L / S + (if L % S ≠ 0 then 1 else 0)

/-- Binary digit count of `n < 2^64`: the number of shifts `k < 64`
with `n >>> k ≠ 0`.  Base case of `bitLen`, phrased with the
kernel-reducible `Nat.shiftRight` so concrete inputs evaluate. -/
def bitLen64 (n : Nat) : Nat :=
  ((Finset.range 64).filter (fun k => n >>> k ≠ 0)).card

/-- Fuelled binary digit count: strips 64 bits at a time; `fuel := n`
always suffices (`bitLen`). -/
def bitLenAux : Nat → Nat → Nat
  | 0, _ => 0
  | fuel + 1, n => if n < 2 ^ 64 then bitLen64 n else bitLenAux fuel (n >>> 64) + 64

/-- Binary digit count of a natural number: `2^(bitLen n - 1) ≤ n <
2^(bitLen n)` for `n > 0` (`bitLen_spec`). -/
def bitLen (n : Nat) : Nat := bitLenAux n n

/-- Round `x / 2^s` to the nearest integer, ties to even - the
significand rounding of IEEE-754 binary64 under the default rounding
mode, which `ceil(PARITY_RATIO * nDataSegments)` runs under. -/
def roundSigTiesEven (x s : Nat) : Nat :=
  if x % 2 ^ s > 2 ^ (s - 1) then x / 2 ^ s + 1
  else if x % 2 ^ s < 2 ^ (s - 1) then x / 2 ^ s
  else if x / 2 ^ s % 2 = 0 then x / 2 ^ s else x / 2 ^ s + 1

/-- Round a nonnegative integer to 53 significant bits, ties to even:
the integer of the same magnitude as the nearest binary64 value to `x`
scaled by any fixed power of two.  Applied to `n` it is the exact value
of `(double)n`; applied to an exact product numerator it performs the
multiplication's rounding step.  (All values reached from `stream.cpp`
stay far below the binary64 overflow threshold.) -/
def roundMantissa (x : Nat) : Nat :=
  if x < 2 ^ 53 then x
  else roundSigTiesEven x (bitLen x - 53) * 2 ^ (bitLen x - 53)

/-- Numerator of the `double` literal `0.2` (`PARITY_RATIO`, stream.cpp
line 26): the decimal `0.2` rounds to `3602879701896397 / 2^54`. -/
def double02Num : Nat := 3602879701896397

/-- Models `(size_t)ceil(PARITY_RATIO * nDataSegments)` (stream.cpp
line 410) exactly as IEEE-754 binary64 evaluates it: `nDataSegments`
(a `size_t`) is rounded to the nearest double, multiplied by the double
`0.2` (= `double02Num / 2^54`) with the product rounded to nearest,
ties to even, and the mathematical ceiling of the resulting dyadic
value is taken (`ceil` of a double and the conversion back to `size_t`
are exact at these magnitudes).  For `nData ≤ 2^53` this agrees with
the exact rational ceiling `⌈nData / 5⌉` (`ceilParityRatio_exact`);
above `2^53` the two roundings can add 1 (first at `nData = 2^53 + 3`,
see the C5 counterexample). -/
def ceilParityRatio (nData : Nat) : Nat :=
  (roundMantissa (roundMantissa nData * double02Num) + 2 ^ 54 - 1) / 2 ^ 54

/-- Models stream.cpp lines 410-413: take the parity ratio ceiling,
raise 0 to 1, then multiply by the `useFec_` flag (a bool converted to
0 or 1). -/
def nParitySegments (useFec : Bool) (nData : Nat) : Nat :=
  (if ceilParityRatio nData = 0 then 1 else ceilParityRatio nData)
    * (if useFec then 1 else 0)

/-- Models `generateFecData` (stream.cpp lines 472-491).  It allocates
a buffer of `nParitySegments * payloadSegSize` zero bytes and lets the
Reed-Solomon encoder (in `fec.hpp`, an external collaborator) write
into it; on a non-zero encoder return it resizes the buffer to 0.  The
encoder's outcome is the explicit input `fecOut`: `none` models a
non-zero return, `some bs` models success with `bs` the bytes the
encoder wrote (the buffer keeps its allocated length). -/
def generateFecData (fecOut : Option (List Nat)) (nParity payloadSegSize : Nat) :
    List Nat :=
  match fecOut with
  | none => []
  | some bs => readBytes bs 0 (nParity * payloadSegSize)

/-- The data-segment packets of one frame (stream.cpp lines 427-438):
segment `seg` is named `frameName/<seg>`, carries `sampleFreshness`,
final-block-id `fromSegment(nData - 1)`, the next `payload` bytes of
the bitstream (the last segment only `lastSegSize` bytes), and a phony
digest signature. -/
def dataSegments (frameName : NdnName) (data : List Nat) (S fresh : Nat) :
    List DataPacket :=
  let nData := nDataSegments data.length S
  let lastSegSize := data.length - S * (nData - 1)
  (List.range nData).map (fun seg =>
    { name := frameName ++ [.seg seg]
      freshness := some fresh
      finalBlockId := some (fromSegmentSub1 nData)
      content := .bytes (readBytes data (seg * S)
        (if seg = nData - 1 then lastSegSize else S))
      sig := .digestSha256 })

/-- The parity-segment packets of one frame (stream.cpp lines 440-452):
segment `seg` is named `frameName/parity/<seg>`, carries
`sampleFreshness`, final-block-id `fromSegment(nParity - 1)`, reads
`payloadSegmentSize` bytes from the FEC buffer (past its end when the
buffer was emptied by an encoder failure), and a phony digest
signature. -/
def paritySegments (frameName : NdnName) (fecBuf : List Nat)
    (nParity S fresh : Nat) : List DataPacket :=
  (List.range nParity).map (fun seg =>
    { name := frameName ++ [.str "parity", .seg seg]
      freshness := some fresh
      finalBlockId := some (fromSegmentSub1 nParity)
      content := .bytes (readBytes fecBuf (seg * S) S)
      sig := .digestSha256 })

/-- Models `generateFrameMeta` (stream.cpp lines 493-542): the frame
meta packet `frameName/_meta` with the per-type freshness, the protobuf
`FrameMeta` wrapped in a `ContentMetaInfo` envelope with content type
`"ndnrtcv4"`, keychain-signed.  `pitTs` is the timeout-period start of
the first pending interest for this name when the memory cache is
attached and reports one (`none` otherwise); the generation delay is
`nowMs - pitTs` in that case and 0 otherwise. -/
def generateFrameMeta (st : StreamState) (nowMs : Nat) (frameName : NdnName)
    (isKey : Bool) (nParity : Nat) (pitTs : Option Nat) : DataPacket :=
  { name := frameName ++ [.str "_meta"]
    freshness := some (if isKey then st.freshness.keySample else st.freshness.sample)
    finalBlockId := none
    content := .frameMetaInfo "ndnrtcv4" nowMs true
      { captureSeconds := st.thisCycleMonotonicNs / 1000000000
        captureNanos := st.thisCycleMonotonicNs % 1000000000
        paritySize := nParity
        gopNumber := st.gopSeq
        gopPosition := st.gopPos
        isKey := isKey
        generationDelay := match pitTs with
          | some t => nowMs - t
          | none => 0 }
    sig := .keychain }

/-- Models `publishFrameGobj` (stream.cpp lines 402-470).  Returns the
frame name, the packets pushed for this frame (data segments, parity
segments, the manifest, the frame meta - in this order), and the updated
state (`lastPublishEpochMs_ = nowMs`).  `digestFn` models the implicit
SHA-256 digest that `Data::getFullName` computes over a packet's wire
encoding (external crypto); `fecOut` is the Reed-Solomon collaborator's
outcome as in `generateFecData`.  The manifest packet is built by the
`SegmentsManifest` constructor from the segments pushed so far and is
never passed to `sign`, so it stays unsigned. -/
def publishFrameGobj (digestFn : DataPacket → List Nat) (st : StreamState)
    (frame : EncodedFrame) (fecOut : Option (List Nat)) (nowMs : Nat)
    (pitTs : Option Nat) : NdnName × List DataPacket × StreamState :=
  let frameName := st.lastFramePfx.dropLast ++ [.seqNo st.frameSeq]
  let S := st.settings.segmentSize
  let nData := nDataSegments frame.data.length S
  let nPar := nParitySegments st.settings.useFec nData
  let fresh := if frame.isKey then st.freshness.keySample else st.freshness.sample
  let fecBuf := if st.settings.useFec then generateFecData fecOut nPar S else []
  let segs := dataSegments frameName frame.data S fresh
    ++ paritySegments frameName fecBuf nPar S fresh
  let manifest : DataPacket :=
    { name := frameName ++ [.str "_manifest"]
      freshness := none
      finalBlockId := none
      content := .bytes (manifestPayload (segs.map digestFn))
      sig := .unsigned }
  (frameName,
   segs ++ [manifest, generateFrameMeta st nowMs frameName frame.isKey nPar pitTs],
   { st with lastPublishEpochMs := nowMs })

/-- Models `publishGop` (stream.cpp lines 544-583): from the current
key frame's prefix it derives `gopPrefix = streamPrefix/_gop`, appends
an end-of-GoP pointer `gopPrefix/<gopSeq>/end` delegating to the
previous frame's prefix when `gopSeq_ > 0`, always appends a
start-of-next-GoP pointer `gopPrefix/<gopSeq+1>/start` delegating to
the current frame's prefix, and returns `gopPrefix/<gopSeq>`. -/
def publishGop (st : StreamState) (framePfx prevFramePfx : NdnName) :
    NdnName × List DataPacket :=
  let gopPfx := framePfx.dropLast ++ [.str "_gop"]
  let endPkts : List DataPacket :=
    if 0 < st.gopSeq then
      [{ name := gopPfx ++ [.seqNo st.gopSeq, .str "end"]
         freshness := some st.freshness.gop
         finalBlockId := none
         content := .delegations [(0, prevFramePfx)]
         sig := .keychain }]
    else []
  let startPkt : DataPacket :=
    { name := gopPfx ++ [.seqNo (st.gopSeq + 1), .str "start"]
      freshness := some st.freshness.gop
      finalBlockId := none
      content := .delegations [(0, framePfx)]
      sig := .keychain }
  (gopPfx ++ [.seqNo st.gopSeq], endPkts ++ [startPkt])

/-- Outcome of one `codec_.encode` call: exactly one encoded callback
(with the frame, the external Reed-Solomon outcome for it, the wall
clock `ndn_getNowMilliseconds()` reading, and the pending-interest
lookup result for the frame meta name) or exactly one dropped
callback. -/
inductive CodecResult where
  | encoded (frame : EncodedFrame) (fecOut : Option (List Nat))
      (nowMs : Nat) (pitTs : Option Nat)
  | dropped
deriving Repr

/-- Environment inputs of one `processImage` call: the monotonic clock
reading taken at the top of the cycle and the codec outcome. -/
structure CycleInput where
  nowNs : Nat
  result : CodecResult
deriving Repr

/-- Models `processImage` (stream.cpp lines 319-375): record the cycle
timestamp, run the codec; in the encoded callback publish the frame,
on key frames publish the GoP pointers and bump `gopSeq_`, then bump
`gopPos_` and `frameSeq_` and update `lastFramePrefix_`; in the dropped
callback publish nothing; finally splice the queued packets onto the
batch tail, clear the queue, and record `lastCycleMonotonicNs_`. -/
def processImage (digestFn : DataPacket → List Nat) (st : StreamState)
    (input : CycleInput) : List DataPacket × StreamState :=
  let st := { st with thisCycleMonotonicNs := input.nowNs }
  let (packets, st) :=
    match input.result with
    | .encoded frame fecOut nowMs pitTs =>
        let r := publishFrameGobj digestFn st frame fecOut nowMs pitTs
        let framePfx := r.1
        let (packets, st) :=
          if frame.isKey then
            let g := publishGop r.2.2 framePfx r.2.2.lastFramePfx
            (r.2.1 ++ g.2,
             { r.2.2 with lastGopPfx := g.1, gopSeq := r.2.2.gopSeq + 1 })
          else (r.2.1, r.2.2)
        (packets,
         { st with gopPos := st.gopPos + 1, frameSeq := st.frameSeq + 1,
                   lastFramePfx := framePfx })
    | .dropped => ([], st)
  (packets ++ st.queued,
   { st with queued := [], lastCycleMonotonicNs := st.thisCycleMonotonicNs })

/-- Models `generateLatestPacket` (stream.cpp lines 645-662): name
`streamPrefix/_latest/<lastPublishEpochMs>`, freshness `latest`,
content the delegation set `{0: lastFramePrefix_, 1: lastGopPrefix_}`,
keychain-signed. -/
def generateLatestPacket (st : StreamState) : DataPacket :=
  { name := st.streamPfx ++ [.str "_latest", .tstamp st.lastPublishEpochMs]
    freshness := some st.freshness.latest
    finalBlockId := none
    content := .delegations [(0, st.lastFramePfx), (1, st.lastGopPfx)]
    sig := .keychain }

/-- Models `generateLivePacket` (stream.cpp lines 664-691): name
`streamPrefix/_live/<lastPublishEpochMs>`, freshness `live`, the
protobuf `LiveMeta` content (estimator values not modelled), keychain-
signed. -/
def generateLivePacket (st : StreamState) : DataPacket :=
  { name := st.streamPfx ++ [.str "_live", .tstamp st.lastPublishEpochMs]
    freshness := some st.freshness.live
    finalBlockId := none
    content := .liveMeta
    sig := .keychain }

/-- Models `onLatestMetaRequest` (stream.cpp lines 627-642): generate
the `_latest` packet, send it on the face (external side effect), and
enqueue the same packet for the next batch. -/
def onLatestMetaRequest (st : StreamState) : DataPacket × StreamState :=
  let d := generateLatestPacket st
  (d, { st with queued := st.queued ++ [d] })

/-- Models `onLiveMetadataRequest` (stream.cpp lines 608-624): generate
the `_live` packet, send it on the face, and enqueue it for the next
batch. -/
def onLiveMetadataRequest (st : StreamState) : DataPacket × StreamState :=
  let d := generateLivePacket st
  (d, { st with queued := st.queued ++ [d] })

/-- Decides whether a packet is one of the GoP pointers: its name,
stripped of the stream prefix, starts with the `_gop` component. -/
def isGopPtr (pfxLen : Nat) (p : DataPacket) : Bool :=
  decide ((p.name.drop pfxLen).head? = some (NameComp.str "_gop"))

/-- The end-of-GoP pointer packet as the spec describes it:
`streamPrefix/_gop/<g>/end`, freshness `gop`, delegating to the
previous frame's prefix, keychain-signed. -/
def endGopPacket (pfx : NdnName) (g freshGop : Nat) (prevPfx : NdnName) :
    DataPacket :=
  { name := pfx ++ [.str "_gop", .seqNo g, .str "end"]
    freshness := some freshGop
    finalBlockId := none
    content := .delegations [(0, prevPfx)]
    sig := .keychain }

/-- The start-of-GoP pointer packet as the spec describes it:
`streamPrefix/_gop/<g>/start`, freshness `gop`, delegating to the
current key frame's prefix, keychain-signed. -/
def startGopPacket (pfx : NdnName) (g freshGop : Nat) (framePfx : NdnName) :
    DataPacket :=
  { name := pfx ++ [.str "_gop", .seqNo g, .str "start"]
    freshness := some freshGop
    finalBlockId := none
    content := .delegations [(0, framePfx)]
    sig := .keychain }

/-- A stand-in for the external SHA-256 implicit digest used in
concrete evaluations. -/
def testDigestFn : DataPacket → List Nat := fun _ => List.replicate 32 0

/-- A digest stand-in distinguishing parity segments from data segments,
used to exhibit the manifest's content concretely. -/
def testDigestFn2 : DataPacket → List Nat :=
  fun p => List.replicate 32 (if NameComp.str "parity" ∈ p.name then 2 else 1)

/-- A small concrete configuration for concrete evaluations: segment
size 2 bytes, FEC on, 30 fps, GoP length 30. -/
def testSettings : Settings :=
  { segmentSize := 2, useFec := true, storeInMemCache := false,
    hasMemCache := false, fps := 30, gopLen := 30, width := 4, height := 4 }

/-- The publisher state right after construction in the concrete test
configuration. -/
def testInit : StreamState := initState testSettings [.str "base"] 7 "cam"

theorem readBytes_length (buf : List Nat) (off len : Nat) :
    (readBytes buf off len).length = len := by
  simp only [readBytes, List.length_append, List.length_take, List.length_drop,
    List.length_replicate]
  omega

theorem readBytes_in_bounds (buf : List Nat) (off len : Nat)
    (h : off + len ≤ buf.length) :
    readBytes buf off len = (buf.drop off).take len := by
  have hl : ((buf.drop off).take len).length = len := by
    simp only [List.length_take, List.length_drop]; omega
  simp [readBytes, hl]

theorem nData_mul_bounds (L S : Nat) (hS : 0 < S) :
    L ≤ nDataSegments L S * S ∧ nDataSegments L S * S < L + S := by
  have hq := Nat.div_add_mod L S
  have hm : L % S < S := Nat.mod_lt _ hS
  unfold nDataSegments
  by_cases hr : L % S = 0
  · simp only [hr, ne_eq, not_true_eq_false, if_false]
    have hc : (L / S + 0) * S = S * (L / S) := by ring
    omega
  · simp only [ne_eq, hr, not_false_eq_true, if_true]
    have hc : (L / S + 1) * S = S * (L / S) + S := by ring
    omega

theorem nData_eq_ceil (L S : Nat) (hS : 0 < S) :
    nDataSegments L S = (L + S - 1) / S := by
  obtain ⟨h1, h2⟩ := nData_mul_bounds L S hS
  have he : (nDataSegments L S + 1) * S = nDataSegments L S * S + S := by ring
  have := Nat.div_eq_of_lt_le (by omega : nDataSegments L S * S ≤ L + S - 1)
    (by omega : L + S - 1 < (nDataSegments L S + 1) * S)
  omega

theorem nData_pos (L S : Nat) (hS : 0 < S) (hL : 0 < L) :
    0 < nDataSegments L S := by
  obtain ⟨h1, _⟩ := nData_mul_bounds L S hS
  rcases Nat.eq_zero_or_pos (nDataSegments L S) with h | h
  · rw [h] at h1; omega
  · exact h

theorem nData_last_lt (L S : Nat) (hS : 0 < S) (hL : 0 < L) :
    (nDataSegments L S - 1) * S < L := by
  obtain ⟨h1, h2⟩ := nData_mul_bounds L S hS
  have hp := nData_pos L S hS hL
  have he : nDataSegments L S * S = (nDataSegments L S - 1) * S + S := by
    rw [Nat.sub_mul, one_mul]
    have : S ≤ nDataSegments L S * S := by
      calc S = 1 * S := (one_mul S).symm
        _ ≤ nDataSegments L S * S := Nat.mul_le_mul_right S hp
    omega
  omega

theorem nData_le_length (L S : Nat) (hS : 0 < S) (hL : 0 < L) :
    nDataSegments L S ≤ L := by
  have h1 := nData_last_lt L S hS hL
  have hp := nData_pos L S hS hL
  have : nDataSegments L S - 1 ≤ (nDataSegments L S - 1) * S := by
    calc nDataSegments L S - 1 = (nDataSegments L S - 1) * 1 := (mul_one _).symm
      _ ≤ (nDataSegments L S - 1) * S := Nat.mul_le_mul_left _ hS
  omega

theorem fromSegmentSub1_eq (n : Nat) (h0 : 0 < n) (h64 : n < 2 ^ 64) :
    fromSegmentSub1 n = .seg (n - 1) := by
  have he : (n + UINT64MAX) % 2 ^ 64 = n - 1 := by
    unfold UINT64MAX
    omega
  unfold fromSegmentSub1
  rw [he]

theorem bitLen64_spec (n : Nat) (h64 : n < 2 ^ 64) (hn : 0 < n) :
    2 ^ (bitLen64 n - 1) ≤ n ∧ n < 2 ^ bitLen64 n := by
  have hlog1 : 2 ^ Nat.log2 n ≤ n := Nat.log2_self_le (by omega)
  have hlog2 : n < 2 ^ (Nat.log2 n + 1) := Nat.lt_log2_self
  set b := Nat.log2 n + 1 with hb
  have hb64 : b ≤ 64 := by
    by_contra hcon
    push_neg at hcon
    have h2 : (2 : Nat) ^ 64 ≤ 2 ^ Nat.log2 n :=
      Nat.pow_le_pow_right (by norm_num) (by omega)
    omega
  have hfilter : (Finset.range 64).filter (fun k => n >>> k ≠ 0)
      = Finset.range b := by
    ext k
    simp only [Finset.mem_filter, Finset.mem_range, Nat.shiftRight_eq_div_pow,
      ne_eq]
    constructor
    · rintro ⟨hk64, hdiv⟩
      by_contra hkb
      push_neg at hkb
      have hbk : (2 : Nat) ^ b ≤ 2 ^ k := Nat.pow_le_pow_right (by norm_num) hkb
      have h2k : 2 ^ k ≤ n := by
        rcases Nat.lt_or_ge n (2 ^ k) with h | h
        · exact absurd (Nat.div_eq_of_lt h) hdiv
        · exact h
      omega
    · intro hkb
      refine ⟨by omega, ?_⟩
      have hk1 : (2 : Nat) ^ k ≤ 2 ^ (b - 1) :=
        Nat.pow_le_pow_right (by norm_num) (by omega)
      have hbn : (2 : Nat) ^ (b - 1) ≤ n := by
        have hbe : b - 1 = Nat.log2 n := by omega
        rw [hbe]; exact hlog1
      have hpos : 0 < n / 2 ^ k :=
        Nat.div_pos (by omega) (Nat.two_pow_pos k)
      omega
  rw [bitLen64, hfilter, Finset.card_range]
  constructor
  · have hbe : b - 1 = Nat.log2 n := by omega
    rw [hbe]; exact hlog1
  · exact hlog2

theorem bitLenAux_spec (fuel : Nat) : ∀ n : Nat, n ≤ fuel → 0 < n →
    2 ^ (bitLenAux fuel n - 1) ≤ n ∧ n < 2 ^ bitLenAux fuel n := by
  induction fuel with
  | zero => intro n h1 h2; omega
  | succ f ih =>
      intro n hle hpos
      by_cases hsm : n < 2 ^ 64
      · simp only [bitLenAux, hsm, if_true]
        exact bitLen64_spec n hsm hpos
      · simp only [bitLenAux, hsm, if_false]
        push_neg at hsm
        have hsh : n >>> 64 = n / 2 ^ 64 := Nat.shiftRight_eq_div_pow n 64
        have hpos2 : 0 < n / 2 ^ 64 := Nat.div_pos hsm (Nat.two_pow_pos 64)
        have hlt : n / 2 ^ 64 < n := Nat.div_lt_self hpos (by norm_num)
        obtain ⟨h1, h2⟩ := ih (n / 2 ^ 64) (by omega) hpos2
        rw [hsh]
        set b := bitLenAux f (n / 2 ^ 64) with hbdef
        have hbpos : 1 ≤ b := by
          by_contra hcon
          push_neg at hcon
          have hb0 : b = 0 := by omega
          rw [hb0, pow_zero] at h2
          omega
        constructor
        · have he : b + 64 - 1 = (b - 1) + 64 := by omega
          rw [he, pow_add]
          calc 2 ^ (b - 1) * 2 ^ 64 ≤ (n / 2 ^ 64) * 2 ^ 64 :=
                Nat.mul_le_mul_right _ h1
            _ ≤ n := Nat.div_mul_le_self n (2 ^ 64)
        · rw [pow_add]
          have hdm := Nat.div_add_mod n (2 ^ 64)
          have hmlt : n % 2 ^ 64 < 2 ^ 64 := Nat.mod_lt _ (Nat.two_pow_pos 64)
          calc n = 2 ^ 64 * (n / 2 ^ 64) + n % 2 ^ 64 := hdm.symm
            _ < (n / 2 ^ 64 + 1) * 2 ^ 64 := by ring_nf; omega
            _ ≤ 2 ^ b * 2 ^ 64 := Nat.mul_le_mul_right _ (by omega)

theorem bitLen_spec (n : Nat) (hn : 0 < n) :
    2 ^ (bitLen n - 1) ≤ n ∧ n < 2 ^ bitLen n :=
  bitLenAux_spec n n le_rfl hn

theorem roundSigTiesEven_le (x s K : Nat) (hs : 1 ≤ s) (h : x ≤ K * 2 ^ s) :
    roundSigTiesEven x s ≤ K := by
  have hpow : 0 < 2 ^ s := Nat.two_pow_pos s
  have hq : x / 2 ^ s ≤ K := by
    calc x / 2 ^ s ≤ K * 2 ^ s / 2 ^ s := Nat.div_le_div_right h
      _ = K := Nat.mul_div_cancel K hpow
  have hhalf : 1 ≤ 2 ^ (s - 1) := Nat.one_le_two_pow
  have hdm := Nat.div_add_mod x (2 ^ s)
  have hsucc : 1 ≤ x % 2 ^ s → x / 2 ^ s + 1 ≤ K := by
    intro hr
    rcases Nat.lt_or_ge (x / 2 ^ s) K with hlt | hge
    · omega
    · exfalso
      have hqK : x / 2 ^ s = K := by omega
      rw [hqK] at hdm
      have hcomm : 2 ^ s * K = K * 2 ^ s := mul_comm _ _
      omega
  unfold roundSigTiesEven
  split_ifs with h1 h2 h3
  · exact hsucc (by omega)
  · exact hq
  · exact hq
  · exact hsucc (by omega)

theorem roundSigTiesEven_ge (x s K : Nat) (hs : 1 ≤ s)
    (h : K * 2 ^ s + 2 ^ (s - 1) + 1 ≤ x) :
    K + 1 ≤ roundSigTiesEven x s := by
  have hpow : 0 < 2 ^ s := Nat.two_pow_pos s
  have hhalf : 1 ≤ 2 ^ (s - 1) := Nat.one_le_two_pow
  have hq : K ≤ x / 2 ^ s := by
    rw [Nat.le_div_iff_mul_le hpow]
    omega
  have hdm := Nat.div_add_mod x (2 ^ s)
  have hcase : 2 ^ (s - 1) < x % 2 ^ s → K + 1 ≤ x / 2 ^ s + 1 := by omega
  have hsmall : x % 2 ^ s ≤ 2 ^ (s - 1) → K + 1 ≤ x / 2 ^ s := by
    intro hr
    rcases Nat.lt_or_ge K (x / 2 ^ s) with hlt | hge
    · omega
    · exfalso
      have hqK : x / 2 ^ s = K := by omega
      rw [hqK] at hdm
      have hcomm : 2 ^ s * K = K * 2 ^ s := mul_comm _ _
      omega
  unfold roundSigTiesEven
  split_ifs with h1 h2 h3
  · exact hcase h1
  · exact hsmall (by omega)
  · exact hsmall (by omega)
  · have := hsmall (by omega)
    omega

theorem roundSigTiesEven_small_rem (K r0 s : Nat) (hs : 1 ≤ s)
    (hr0 : r0 < 2 ^ (s - 1)) :
    roundSigTiesEven (K * 2 ^ s + r0) s = K := by
  have hpow : 0 < 2 ^ s := Nat.two_pow_pos s
  have hhl : 2 ^ (s - 1) < 2 ^ s := Nat.pow_lt_pow_right (by norm_num) (by omega)
  have hmod : (K * 2 ^ s + r0) % 2 ^ s = r0 := by
    rw [Nat.mul_add_mod', Nat.mod_eq_of_lt (by omega)]
  have hdiv : (K * 2 ^ s + r0) / 2 ^ s = K := by
    rw [Nat.add_comm, Nat.add_mul_div_right _ _ hpow,
      Nat.div_eq_of_lt (by omega)]
    omega
  unfold roundSigTiesEven
  rw [hmod, hdiv]
  split_ifs with h1 h2 h3 <;> omega

theorem roundMantissa_eq_of_le (n : Nat) (hn : n ≤ 2 ^ 53) :
    roundMantissa n = n := by
  rcases Nat.lt_or_ge n (2 ^ 53) with h | h
  · unfold roundMantissa
    rw [if_pos h]
  · have he : n = 2 ^ 53 := by omega
    subst he
    decide

theorem ceilParityRatio_exact (n : Nat) (hn : n ≤ 2 ^ 53) :
    ceilParityRatio n = (n + 4) / 5 := by
  rcases Nat.lt_or_ge n 3 with h3 | h3
  · have hsm : n = 0 ∨ n = 1 ∨ n = 2 := by omega
    rcases hsm with rfl | rfl | rfl <;> decide
  · have hm0 : roundMantissa n = n := roundMantissa_eq_of_le n hn
    unfold ceilParityRatio
    rw [hm0]
    set P := n * double02Num with hP
    have hc : 5 * double02Num = 2 ^ 54 + 1 := by norm_num [double02Num]
    have h5P : 5 * P = n * 2 ^ 54 + n := by
      calc 5 * P = n * (5 * double02Num) := by rw [hP]; ring
        _ = n * (2 ^ 54 + 1) := by rw [hc]
        _ = n * 2 ^ 54 + n := by ring
    have hP53 : 2 ^ 53 ≤ P := by
      have h3le : 3 * double02Num ≤ P := by
        rw [hP]; exact Nat.mul_le_mul_right _ h3
      have h3c : (2 : Nat) ^ 53 ≤ 3 * double02Num := by norm_num [double02Num]
      omega
    have hPub : P < 2 ^ 105 := by
      have hle : P ≤ 2 ^ 53 * double02Num := by
        rw [hP]; exact Nat.mul_le_mul_right _ hn
      have hub : (2 : Nat) ^ 53 * double02Num < 2 ^ 105 := by
        norm_num [double02Num]
      omega
    have hPpos : 0 < P := by omega
    obtain ⟨hb1, hb2⟩ := bitLen_spec P hPpos
    set b := bitLen P with hbdef
    have hbge : 54 ≤ b := by
      by_contra hcon
      push_neg at hcon
      have hcmp : (2 : Nat) ^ b ≤ 2 ^ 53 :=
        Nat.pow_le_pow_right (by norm_num) (by omega)
      omega
    have hble : b ≤ 105 := by
      by_contra hcon
      push_neg at hcon
      have hcmp : (2 : Nat) ^ 105 ≤ 2 ^ (b - 1) :=
        Nat.pow_le_pow_right (by norm_num) (by omega)
      omega
    set s := b - 53 with hsdef
    have hs1 : 1 ≤ s := by omega
    have hs52 : s ≤ 52 := by omega
    have hnotlt : ¬ P < 2 ^ 53 := by omega
    unfold roundMantissa
    rw [if_neg hnotlt, ← hbdef, ← hsdef]
    set m := (n + 4) / 5 with hmdef
    have hdm5 := Nat.div_add_mod (n + 4) 5
    have hm45 : (n + 4) % 5 < 5 := Nat.mod_lt _ (by norm_num)
    have hmlo : n ≤ 5 * m := by omega
    have hmhi : 5 * m ≤ n + 4 := by omega
    have hm1 : 1 ≤ m := by omega
    have hss : 2 ^ (54 - s) * 2 ^ s = 2 ^ 54 := by
      rw [← pow_add]
      congr 1
      omega
    have hhalf51 : 2 ^ (s - 1) ≤ 2 ^ 51 :=
      Nat.pow_le_pow_right (by norm_num) (by omega)
    have hhalf1 : 1 ≤ 2 ^ (s - 1) := Nat.one_le_two_pow
    have hub2 : roundSigTiesEven P s * 2 ^ s ≤ m * 2 ^ 54 := by
      rcases Nat.lt_or_ge n (5 * m) with hlt | hge
      · have hPle : P ≤ m * 2 ^ (54 - s) * 2 ^ s := by
          rw [mul_assoc, hss]
          omega
        have hr := roundSigTiesEven_le P s (m * 2 ^ (54 - s)) hs1 hPle
        calc roundSigTiesEven P s * 2 ^ s ≤ m * 2 ^ (54 - s) * 2 ^ s :=
              Nat.mul_le_mul_right _ hr
          _ = m * 2 ^ 54 := by rw [mul_assoc, hss]
      · have hn5m : n = 5 * m := by omega
        have hPeq : P = m * 2 ^ 54 + m := by omega
        have hmlt : m < 2 ^ (s - 1) := by
          have hlt1 : m * 2 ^ 54 < 2 ^ b := by omega
          have heq2 : (2 : Nat) ^ b = 2 ^ (s - 1) * 2 ^ 54 := by
            rw [← pow_add]
            congr 1
            omega
          rw [heq2] at hlt1
          exact lt_of_mul_lt_mul_right hlt1 (Nat.zero_le _)
        have hPeq2 : P = m * 2 ^ (54 - s) * 2 ^ s + m := by
          rw [mul_assoc, hss]; omega
        rw [hPeq2, roundSigTiesEven_small_rem _ _ _ hs1 hmlt, mul_assoc, hss]
    have hlb2 : (m - 1) * 2 ^ 54 < roundSigTiesEven P s * 2 ^ s := by
      have hPge : (m - 1) * 2 ^ (54 - s) * 2 ^ s + 2 ^ (s - 1) + 1 ≤ P := by
        rw [mul_assoc, hss]
        have hexp : (m - 1) * 2 ^ 54 = m * 2 ^ 54 - 2 ^ 54 := by
          rw [Nat.sub_mul, one_mul]
        omega
      have hr := roundSigTiesEven_ge P s ((m - 1) * 2 ^ (54 - s)) hs1 hPge
      calc (m - 1) * 2 ^ 54 = (m - 1) * 2 ^ (54 - s) * 2 ^ s := by
            rw [mul_assoc, hss]
        _ < ((m - 1) * 2 ^ (54 - s) + 1) * 2 ^ s := by
            have hp : 0 < 2 ^ s := Nat.two_pow_pos s
            nlinarith
        _ ≤ roundSigTiesEven P s * 2 ^ s := Nat.mul_le_mul_right _ hr
    exact Nat.div_eq_of_lt_le (by omega)
      (by
        have he : (m + 1) * 2 ^ 54 = m * 2 ^ 54 + 2 ^ 54 := by ring
        omega)

theorem ceil_fifth_exact (n : Nat) :
    (n + 4) / 5 = ⌈(0.2 : ℚ) * (n : ℚ)⌉₊ := by
  rcases Nat.eq_zero_or_pos n with h | hn
  · subst h; norm_num
  · have h02 : (0.2 : ℚ) = 1 / 5 := by norm_num
    have hq := Nat.div_add_mod (n + 4) 5
    have hm : (n + 4) % 5 < 5 := Nat.mod_lt _ (by norm_num)
    set q := (n + 4) / 5 with hqdef
    have hq1 : 1 ≤ q := by omega
    have hub : n ≤ 5 * q := by omega
    have hlb : 5 * (q - 1) < n := by omega
    rw [eq_comm, Nat.ceil_eq_iff (by omega)]
    constructor
    · rw [h02, div_mul_eq_mul_div, lt_div_iff₀ (by norm_num : (0 : ℚ) < 5)]
      have hc : ((5 * (q - 1) : ℕ) : ℚ) < ((n : ℕ) : ℚ) := by exact_mod_cast hlb
      push_cast [hq1] at hc ⊢
      nlinarith
    · rw [h02, div_mul_eq_mul_div, div_le_iff₀ (by norm_num : (0 : ℚ) < 5)]
      have hc : ((n : ℕ) : ℚ) ≤ ((5 * q : ℕ) : ℚ) := by exact_mod_cast hub
      push_cast at hc ⊢
      nlinarith

theorem join_slices (S : Nat) (data : List Nat) (n : Nat) :
    ((List.range n).map (fun i => (data.drop (i * S)).take S)).flatten
      = data.take (n * S) := by
  induction n with
  | zero => simp
  | succ k ih =>
      rw [List.range_succ, List.map_append, List.flatten_append, ih]
      simp only [List.map_cons, List.map_nil, List.flatten_cons, List.flatten_nil,
        List.append_nil]
      have hm : (k + 1) * S = k * S + S := by ring
      rw [hm, List.take_add]

theorem dataSegments_payloads (frameName : NdnName) (data : List Nat)
    (S fresh : Nat) (hS : 0 < S) (hL : 0 < data.length) :
    (dataSegments frameName data S fresh).map (fun p => p.content.asBytes)
      = (List.range (nDataSegments data.length S)).map
          (fun i => (data.drop (i * S)).take S) := by
  unfold dataSegments
  rw [List.map_map]
  apply List.map_congr_left
  intro i hi
  simp only [List.mem_range] at hi
  set n := nDataSegments data.length S with hn
  simp only [Function.comp_apply, Content.asBytes]
  by_cases hlast : i = n - 1
  · subst hlast
    have hb1 : (n - 1) * S ≤ data.length :=
      le_of_lt (nData_last_lt data.length S hS hL)
    have hb2 : data.length ≤ n * S := (nData_mul_bounds data.length S hS).1
    have hle : S * (n - 1) = (n - 1) * S := mul_comm _ _
    rw [if_pos rfl,
      readBytes_in_bounds _ _ _ (by rw [hle]; omega)]
    have hlen : (data.drop ((n - 1) * S)).length = data.length - (n - 1) * S := by
      simp
    have hsub : data.length - S * (n - 1) = data.length - (n - 1) * S := by
      rw [hle]
    rw [hsub, List.take_of_length_le (by omega),
      List.take_of_length_le ?hge]
    case hge =>
      rw [hlen]
      have he : n * S = (n - 1) * S + S := by
        rw [Nat.sub_mul, one_mul]
        have hp := nData_pos data.length S hS hL
        have : S ≤ n * S := by
          calc S = 1 * S := (one_mul S).symm
            _ ≤ n * S := Nat.mul_le_mul_right S hp
        omega
      omega
  · rw [if_neg hlast]
    apply readBytes_in_bounds
    have hi2 : i + 1 ≤ n - 1 := by omega
    have hb1 : (n - 1) * S < data.length + 1 :=
      Nat.lt_succ_of_lt (nData_last_lt data.length S hS hL)
    have : (i + 1) * S ≤ (n - 1) * S := Nat.mul_le_mul_right S hi2
    have he : (i + 1) * S = i * S + S := by ring
    omega

theorem dataSegments_flatten (frameName : NdnName) (data : List Nat)
    (S fresh : Nat) (hS : 0 < S) (hL : 0 < data.length) :
    ((dataSegments frameName data S fresh).map
        (fun p => p.content.asBytes)).flatten = data := by
  rw [dataSegments_payloads frameName data S fresh hS hL, join_slices,
    List.take_of_length_le (nData_mul_bounds data.length S hS).1]

theorem ndn_getLast_concat2 (l : NdnName) (a b : NameComp) :
    (l ++ [a, b]).getLast? = some b := by
  have h : l ++ [a, b] = (l ++ [a]) ++ [b] := by simp
  rw [h]; exact List.getLast?_concat _

theorem isGopPtr_of_seqNo (pfx : NdnName) (k : Nat) (rest : NdnName)
    (p : DataPacket) (hname : p.name = pfx ++ (NameComp.seqNo k :: rest)) :
    isGopPtr pfx.length p = false := by
  simp [isGopPtr, hname]

theorem publishFrameGobj_no_gop (dFn : DataPacket → List Nat) (st : StreamState)
    (frame : EncodedFrame) (fecOut : Option (List Nat)) (nowMs : Nat)
    (pitTs : Option Nat) (pfx : NdnName) (c : NameComp)
    (hpfx : st.lastFramePfx = pfx ++ [c]) :
    (publishFrameGobj dFn st frame fecOut nowMs pitTs).2.1.filter
      (isGopPtr pfx.length) = [] := by
  apply List.filter_eq_nil_iff.mpr
  intro p hp
  have hdrop : st.lastFramePfx.dropLast = pfx := by
    rw [hpfx]; exact List.dropLast_concat
  simp only [publishFrameGobj, List.mem_append, List.mem_cons, List.mem_singleton,
    dataSegments, paritySegments, List.mem_map, List.mem_range] at hp
  rcases hp with ((⟨seg, hseg, rfl⟩ | ⟨seg, hseg, rfl⟩) | rfl | rfl | h)
  · simp [isGopPtr, hdrop, List.append_assoc]
  · simp [isGopPtr, hdrop, List.append_assoc]
  · simp [isGopPtr, hdrop, List.append_assoc]
  · simp [isGopPtr, hdrop, generateFrameMeta, List.append_assoc]
  · exact absurd h (List.not_mem_nil p)

theorem publishGop_shape (st : StreamState) (framePfx prevPfx : NdnName)
    (c : NameComp) (hf : framePfx = st.streamPfx ++ [c]) :
    (publishGop st framePfx prevPfx).2
      = (if 0 < st.gopSeq then
          [endGopPacket st.streamPfx st.gopSeq st.freshness.gop prevPfx]
         else [])
        ++ [startGopPacket st.streamPfx (st.gopSeq + 1) st.freshness.gop framePfx]
    ∧ (publishGop st framePfx prevPfx).1
      = st.streamPfx ++ [.str "_gop", .seqNo st.gopSeq] := by
  have hdrop : framePfx.dropLast = st.streamPfx := by
    rw [hf]; exact List.dropLast_concat
  constructor
  · simp only [publishGop, hdrop, endGopPacket, startGopPacket]
    by_cases h : 0 < st.gopSeq
    · simp [h]
    · simp [h]
  · simp [publishGop, hdrop]

theorem gopPkts_all_gop (st : StreamState) (framePfx prevPfx : NdnName)
    (c : NameComp) (hf : framePfx = st.streamPfx ++ [c]) :
    (publishGop st framePfx prevPfx).2.filter (isGopPtr st.streamPfx.length)
      = (publishGop st framePfx prevPfx).2 := by
  apply List.filter_eq_self.mpr
  intro p hp
  obtain ⟨hshape, _⟩ := publishGop_shape st framePfx prevPfx c hf
  rw [hshape] at hp
  simp only [List.mem_append, List.mem_singleton] at hp
  rcases hp with hp | rfl
  · by_cases h : 0 < st.gopSeq
    · rw [if_pos h] at hp
      simp only [List.mem_singleton] at hp
      subst hp
      simp [isGopPtr, endGopPacket]
    · rw [if_neg h] at hp
      exact absurd hp (List.not_mem_nil p)
  · simp [isGopPtr, startGopPacket]

theorem processImage_encoded_batch (dFn : DataPacket → List Nat) (st : StreamState)
    (nowNs : Nat) (frame : EncodedFrame) (fecOut : Option (List Nat))
    (nowMs : Nat) (pitTs : Option Nat) :
    (processImage dFn st ⟨nowNs, .encoded frame fecOut nowMs pitTs⟩).1
      = (publishFrameGobj dFn { st with thisCycleMonotonicNs := nowNs }
           frame fecOut nowMs pitTs).2.1
        ++ (if frame.isKey then
              (publishGop
                (publishFrameGobj dFn { st with thisCycleMonotonicNs := nowNs }
                   frame fecOut nowMs pitTs).2.2
                (publishFrameGobj dFn { st with thisCycleMonotonicNs := nowNs }
                   frame fecOut nowMs pitTs).1
                st.lastFramePfx).2
            else [])
        ++ st.queued := by
  cases hk : frame.isKey
  · simp only [processImage, hk]
    simp [publishFrameGobj]
  · simp only [processImage, hk, if_true]
    simp [publishFrameGobj, List.append_assoc]

theorem processImage_encoded_state (dFn : DataPacket → List Nat) (st : StreamState)
    (nowNs : Nat) (frame : EncodedFrame) (fecOut : Option (List Nat))
    (nowMs : Nat) (pitTs : Option Nat) :
    (processImage dFn st ⟨nowNs, .encoded frame fecOut nowMs pitTs⟩).2
      = { st with
          thisCycleMonotonicNs := nowNs
          lastCycleMonotonicNs := nowNs
          lastPublishEpochMs := nowMs
          frameSeq := st.frameSeq + 1
          gopPos := st.gopPos + 1
          gopSeq := st.gopSeq + (if frame.isKey then 1 else 0)
          lastGopPfx := if frame.isKey
            then st.lastFramePfx.dropLast ++ [.str "_gop", .seqNo st.gopSeq]
            else st.lastGopPfx
          lastFramePfx := st.lastFramePfx.dropLast ++ [.seqNo st.frameSeq]
          queued := [] } := by
  cases hk : frame.isKey
  · simp [processImage, hk, publishFrameGobj]
  · simp [processImage, hk, publishFrameGobj, publishGop]

theorem processImage_dropped (dFn : DataPacket → List Nat) (st : StreamState)
    (nowNs : Nat) :
    processImage dFn st ⟨nowNs, .dropped⟩
      = (st.queued,
         { st with thisCycleMonotonicNs := nowNs, lastCycleMonotonicNs := nowNs,
                   queued := [] }) := by
  simp [processImage]

/-- C1: the claim says the manifest content is the 32-byte implicit
digests of all data and parity segments concatenated in segment order,
each appearing exactly once.  The code allocates the right length
(`32 * nSegments`) but never advances the write pointer, so at a frame
with two segments whose digests are 32 ones and 32 twos the manifest
content is the second digest followed by 32 zeros, not the
concatenation, and the first digest does not appear at all (the class's
own `hasData` scanner cannot find it). -/
theorem C1_manifest_digest_overwritten :
    (manifestPayload [List.replicate 32 1, List.replicate 32 2]).length = 32 * 2
    ∧ manifestPayload [List.replicate 32 1, List.replicate 32 2]
        = List.replicate 32 2 ++ List.replicate 32 0
    ∧ manifestPayload [List.replicate 32 1, List.replicate 32 2]
        ≠ List.replicate 32 1 ++ List.replicate 32 2
    ∧ manifestHasData
        (manifestPayload [List.replicate 32 1, List.replicate 32 2])
        (List.replicate 32 1) = false
    ∧ ((processImage testDigestFn2 testInit
          ⟨5, .encoded ⟨false, [1, 2, 3]⟩ (some [7, 7]) 9 none⟩).1.filter
        (fun p => decide (p.name.getLast? = some (.str "_manifest")))).map
          (fun p => p.content)
      = [.bytes (List.replicate 32 2 ++ List.replicate 64 0)] := by
  refine ⟨by decide, by decide, by decide, by decide, by decide⟩

/-- C2: the claim says every packet in a batch is signed exactly once,
with the segments manifest carrying a full keychain signature.  The
code signs data and parity segments (digest), the frame meta, the
stream meta, GoP pointers, `_latest` and `_live` (keychain), but never
calls `sign` on the manifest packet: in the batch for a 3-byte delta
frame with segment size 2 the `_manifest` packet is unsigned. -/
theorem C2_manifest_never_signed :
    ((processImage testDigestFn testInit
        ⟨5, .encoded ⟨false, [1, 2, 3]⟩ (some [7, 7]) 9 none⟩).1.map
      (fun p => (p.name.getLast?, p.sig)))
    = [(some (.seg 0), .digestSha256),
       (some (.seg 1), .digestSha256),
       (some (.seg 0), .digestSha256),
       (some (.str "_manifest"), .unsigned),
       (some (.str "_meta"), .keychain),
       (some (.str "_meta"), .keychain)] := by
  decide

/-- C3: the claim says that when the Reed-Solomon encoder fails the
publisher discards parity, so the batch holds the data segments and no
parity segments.  The code empties the FEC buffer on failure but does
not reset `nParitySegments`, so the parity loop still runs and emits
parity packets whose contents are read past the end of the empty
buffer: for a 3-byte frame with segment size 2 and a failed encode, the
batch still contains one parity packet (content read out of bounds,
modelled as zeros) next to both data segments. -/
theorem C3_parity_not_discarded_on_fec_failure :
    ((processImage testDigestFn testInit
        ⟨5, .encoded ⟨false, [1, 2, 3]⟩ none 9 none⟩).1.filter
      (fun p => decide (NameComp.str "parity" ∈ p.name))).map
        (fun p => p.content)
      = [.bytes [0, 0]]
    ∧ ((processImage testDigestFn testInit
        ⟨5, .encoded ⟨false, [1, 2, 3]⟩ none 9 none⟩).1.map
      (fun p => p.name.getLast?))
      = [some (.seg 0), some (.seg 1), some (.seg 0),
         some (.str "_manifest"), some (.str "_meta"), some (.str "_meta")] := by
  refine ⟨by decide, by decide⟩

/-- C4: for every encoded frame of length `L > 0` with segment size
`S > 0` (`L < 2^64`, a `size_t`), the number of data segments is
`⌈L / S⌉`; every data segment except the last has payload exactly `S`
bytes and the last has `L - S * (nData - 1)` bytes; every data
segment's final-block-id is the segment component `nData - 1`; and the
data-segment payloads concatenated in segment order reproduce exactly
the `L` frame bytes. -/
theorem C4_data_segmentation (framePfx : NdnName) (data : List Nat)
    (S fresh : Nat) (hS : 0 < S) (hL : 0 < data.length)
    (h64 : data.length < 2 ^ 64) :
    nDataSegments data.length S = (data.length + S - 1) / S
    ∧ (dataSegments framePfx data S fresh).length = nDataSegments data.length S
    ∧ ((dataSegments framePfx data S fresh).map
        (fun p => p.content.asBytes.length))
      = (List.range (nDataSegments data.length S)).map
          (fun i => if i = nDataSegments data.length S - 1
              then data.length - S * (nDataSegments data.length S - 1) else S)
    ∧ (∀ p ∈ dataSegments framePfx data S fresh,
        p.finalBlockId = some (.seg (nDataSegments data.length S - 1)))
    ∧ ((dataSegments framePfx data S fresh).map
        (fun p => p.content.asBytes)).flatten = data := by
  refine ⟨nData_eq_ceil data.length S hS, ?_, ?_, ?_, ?_⟩
  · simp [dataSegments]
  · unfold dataSegments
    rw [List.map_map]
    apply List.map_congr_left
    intro i hi
    simp only [Function.comp_apply, Content.asBytes]
    rw [readBytes_length]
  · intro p hp
    simp only [dataSegments, List.mem_map, List.mem_range] at hp
    obtain ⟨seg, hseg, rfl⟩ := hp
    simp only
    rw [fromSegmentSub1_eq _ (nData_pos data.length S hS hL)
      (lt_of_le_of_lt (nData_le_length data.length S hS hL) h64)]
  · exact dataSegments_flatten framePfx data S fresh hS hL

theorem C4_data_segmentation_witness :
    0 < 2 ∧ 0 < ([5, 6, 7] : List Nat).length
    ∧ ([5, 6, 7] : List Nat).length < 2 ^ 64
    ∧ nDataSegments ([5, 6, 7] : List Nat).length 2
        = (([5, 6, 7] : List Nat).length + 2 - 1) / 2 :=
  ⟨by decide, by decide, by decide,
   (C4_data_segmentation [.str "s"] [5, 6, 7] 2 33
      (by decide) (by decide) (by decide)).1⟩

/-- C5 counterexample: the frozen claim says the number of parity
segments is `⌈0.2 * nData⌉` with a minimum of 1 whenever FEC is on.
At `nDataSegments = 2^53 + 3` (a representable `size_t`, reachable
from `frame.length_ = 2^53 + 3` with `segmentSize = 1`) the conversion
of `nDataSegments` to double rounds up to `2^53 + 4` and the code
computes 1801439850948200 parity segments, one more than the exact
ceiling `⌈(2^53 + 3) / 5⌉ = 1801439850948199` - so the claim as stated
is false on the code. -/
theorem C5_double_rounding_counterexample :
    nParitySegments true (2 ^ 53 + 3) = 1801439850948200
    ∧ max 1 ⌈(0.2 : ℚ) * ((2 ^ 53 + 3 : ℕ) : ℚ)⌉₊ = 1801439850948199
    ∧ nParitySegments true (2 ^ 53 + 3)
        ≠ max 1 ⌈(0.2 : ℚ) * ((2 ^ 53 + 3 : ℕ) : ℚ)⌉₊ := by
  have hceil : (2 ^ 53 + 3 + 4) / 5 = ⌈(0.2 : ℚ) * ((2 ^ 53 + 3 : ℕ) : ℚ)⌉₊ :=
    ceil_fifth_exact (2 ^ 53 + 3)
  refine ⟨by decide, ?_, ?_⟩
  · rw [← hceil]; decide
  · rw [← hceil]; decide

/-- C5 (amended): for every published frame whose number of data
segments is at most `2^53` - in particular every physically possible
frame - the number of parity segments equals `⌈0.2 * nData⌉` with a
minimum of 1 when `use_fec` is true; it is 0 for every frame when
`use_fec` is false; and every emitted parity segment's payload is
exactly `segment_size` bytes (the source always passes
`payloadSegmentSize` as the copy length).  Above `2^53` the double
rounding can add one parity segment (see the counterexample). -/
theorem C5_parity_count_and_size :
    (∀ nData : Nat, nData ≤ 2 ^ 53 →
      nParitySegments true nData = max 1 ⌈(0.2 : ℚ) * (nData : ℚ)⌉₊)
    ∧ (∀ nData : Nat, nParitySegments false nData = 0)
    ∧ (∀ (frameName : NdnName) (fecBuf : List Nat) (nPar S fresh : Nat),
        ∀ p ∈ paritySegments frameName fecBuf nPar S fresh,
          p.content.asBytes.length = S)
    ∧ (∀ (frameName : NdnName) (fecBuf : List Nat) (nPar S fresh : Nat),
        (paritySegments frameName fecBuf nPar S fresh).length = nPar) := by
  refine ⟨?_, ?_, ?_, ?_⟩
  · intro nData hn
    rw [← ceil_fifth_exact]
    unfold nParitySegments
    rw [ceilParityRatio_exact nData hn]
    by_cases h : (nData + 4) / 5 = 0
    · simp [h]
    · simp only [h, if_false, if_true, mul_one]
      omega
  · intro nData
    simp [nParitySegments]
  · intro frameName fecBuf nPar S fresh p hp
    simp only [paritySegments, List.mem_map, List.mem_range] at hp
    obtain ⟨seg, hseg, rfl⟩ := hp
    simp only [Content.asBytes]
    exact readBytes_length fecBuf (seg * S) S
  · intro frameName fecBuf nPar S fresh
    simp [paritySegments]

theorem C5_parity_count_and_size_witness :
    (2 : Nat) ≤ 2 ^ 53
    ∧ nParitySegments true 2 = max 1 ⌈(0.2 : ℚ) * ((2 : ℕ) : ℚ)⌉₊
    ∧ ({ name := [NameComp.str "s", NameComp.str "parity", NameComp.seg 0]
         freshness := some 33
         finalBlockId := some (fromSegmentSub1 1)
         content := .bytes [9, 9]
         sig := .digestSha256 } : DataPacket)
      ∈ paritySegments [NameComp.str "s"] [9, 9] 1 2 33
    ∧ ({ name := [NameComp.str "s", NameComp.str "parity", NameComp.seg 0]
         freshness := some 33
         finalBlockId := some (fromSegmentSub1 1)
         content := .bytes [9, 9]
         sig := .digestSha256 } : DataPacket).content.asBytes.length = 2 :=
  ⟨by decide, C5_parity_count_and_size.1 2 (by decide), by decide,
   C5_parity_count_and_size.2.2.1 [NameComp.str "s"] [9, 9] 1 2 33 _ (by decide)⟩

theorem processImage_key_gop_packets (dFn : DataPacket → List Nat)
    (st : StreamState) (nowNs : Nat) (frame : EncodedFrame)
    (fecOut : Option (List Nat)) (nowMs : Nat) (pitTs : Option Nat)
    (c : NameComp) (hpfx : st.lastFramePfx = st.streamPfx ++ [c])
    (hk : frame.isKey = true) :
    (processImage dFn st ⟨nowNs, .encoded frame fecOut nowMs pitTs⟩).1
      = (publishFrameGobj dFn { st with thisCycleMonotonicNs := nowNs }
           frame fecOut nowMs pitTs).2.1
        ++ ((if 0 < st.gopSeq then
              [endGopPacket st.streamPfx st.gopSeq st.freshness.gop st.lastFramePfx]
             else [])
            ++ [startGopPacket st.streamPfx (st.gopSeq + 1) st.freshness.gop
                 (st.streamPfx ++ [.seqNo st.frameSeq])])
        ++ st.queued := by
  rw [processImage_encoded_batch, hk, if_pos rfl]
  set st1 : StreamState := { st with thisCycleMonotonicNs := nowNs } with hst1
  set st2 := (publishFrameGobj dFn st1 frame fecOut nowMs pitTs).2.2 with hst2
  have hst2eq : st2 = { st1 with lastPublishEpochMs := nowMs } := by
    simp [hst2, publishFrameGobj]
  have hfp : (publishFrameGobj dFn st1 frame fecOut nowMs pitTs).1
      = st2.streamPfx ++ [NameComp.seqNo st2.frameSeq] := by
    simp [publishFrameGobj, hst2eq, hpfx, List.dropLast_concat]
  obtain ⟨hshape, _⟩ := publishGop_shape st2
    (publishFrameGobj dFn st1 frame fecOut nowMs pitTs).1 st.lastFramePfx
    (NameComp.seqNo st2.frameSeq) hfp
  rw [hshape]
  have hsp : st2.streamPfx = st.streamPfx := by rw [hst2eq]
  have hgop : st2.gopSeq = st.gopSeq := by rw [hst2eq]
  have hfr : st2.freshness = st.freshness := by rw [hst2eq]
  have hfs : st2.frameSeq = st.frameSeq := by rw [hst2eq]
  rw [hgop, hfr, hfp, hsp, hfs]

/-- C6: on every key-frame publish a start-of-GoP pointer
`streamPrefix/_gop/<gopSeq+1>/start` delegating to the current frame's
prefix is emitted; an end-of-GoP pointer `streamPrefix/_gop/<gopSeq>/end`
delegating to the previous frame's prefix is emitted iff `gopSeq >= 1`
at that moment - so the first key frame emits exactly one GoP pointer
and every later key frame exactly two; non-key frames (and dropped
frames) emit none.  The queued reactive packets are assumed GoP-free
(the stream meta, `_latest` and `_live` packets queued by the source
all are). -/
theorem C6_gop_pointer_pairs (dFn : DataPacket → List Nat) (st : StreamState)
    (nowNs : Nat) (frame : EncodedFrame) (fecOut : Option (List Nat))
    (nowMs : Nat) (pitTs : Option Nat) (c : NameComp)
    (hpfx : st.lastFramePfx = st.streamPfx ++ [c])
    (hq : ∀ p ∈ st.queued, isGopPtr st.streamPfx.length p = false) :
    ((processImage dFn st ⟨nowNs, .encoded frame fecOut nowMs pitTs⟩).1.filter
        (isGopPtr st.streamPfx.length))
      = (if frame.isKey then
          (if 0 < st.gopSeq then
            [endGopPacket st.streamPfx st.gopSeq st.freshness.gop st.lastFramePfx]
           else [])
          ++ [startGopPacket st.streamPfx (st.gopSeq + 1) st.freshness.gop
               (st.streamPfx ++ [.seqNo st.frameSeq])]
         else [])
    ∧ (frame.isKey = true →
        ((processImage dFn st ⟨nowNs, .encoded frame fecOut nowMs pitTs⟩).1.filter
            (isGopPtr st.streamPfx.length)).length
          = if 0 < st.gopSeq then 2 else 1)
    ∧ (frame.isKey = false →
        ((processImage dFn st ⟨nowNs, .encoded frame fecOut nowMs pitTs⟩).1.filter
            (isGopPtr st.streamPfx.length)) = [])
    ∧ ((processImage dFn st ⟨nowNs, .dropped⟩).1.filter
        (isGopPtr st.streamPfx.length)) = [] := by
  have hqnil : st.queued.filter (isGopPtr st.streamPfx.length) = [] :=
    List.filter_eq_nil_iff.mpr (by intro p hp; simp [hq p hp])
  have hmain : ((processImage dFn st
      ⟨nowNs, .encoded frame fecOut nowMs pitTs⟩).1.filter
        (isGopPtr st.streamPfx.length))
      = (if frame.isKey then
          (if 0 < st.gopSeq then
            [endGopPacket st.streamPfx st.gopSeq st.freshness.gop st.lastFramePfx]
           else [])
          ++ [startGopPacket st.streamPfx (st.gopSeq + 1) st.freshness.gop
               (st.streamPfx ++ [.seqNo st.frameSeq])]
         else []) := by
    cases hk : frame.isKey
    · rw [if_neg (by simp)]
      rw [processImage_encoded_batch, hk, if_neg (by simp)]
      rw [List.append_nil, List.filter_append]
      rw [publishFrameGobj_no_gop dFn { st with thisCycleMonotonicNs := nowNs }
        frame fecOut nowMs pitTs st.streamPfx c hpfx, hqnil]
      rfl
    · rw [if_pos rfl]
      rw [processImage_key_gop_packets dFn st nowNs frame fecOut nowMs pitTs c
        hpfx hk]
      rw [List.filter_append, List.filter_append]
      rw [publishFrameGobj_no_gop dFn { st with thisCycleMonotonicNs := nowNs }
        frame fecOut nowMs pitTs st.streamPfx c hpfx, hqnil]
      rw [List.nil_append, List.append_nil, List.filter_append]
      have hstart : List.filter (isGopPtr st.streamPfx.length)
          [startGopPacket st.streamPfx (st.gopSeq + 1) st.freshness.gop
            (st.streamPfx ++ [.seqNo st.frameSeq])]
          = [startGopPacket st.streamPfx (st.gopSeq + 1) st.freshness.gop
              (st.streamPfx ++ [.seqNo st.frameSeq])] := by
        simp [isGopPtr, startGopPacket]
      rw [hstart]
      by_cases hg : 0 < st.gopSeq
      · rw [if_pos hg]
        have hend : List.filter (isGopPtr st.streamPfx.length)
            [endGopPacket st.streamPfx st.gopSeq st.freshness.gop st.lastFramePfx]
            = [endGopPacket st.streamPfx st.gopSeq st.freshness.gop
                st.lastFramePfx] := by
          simp [isGopPtr, endGopPacket]
        rw [hend]
      · rw [if_neg hg, List.filter_nil]
  refine ⟨hmain, ?_, ?_, ?_⟩
  · intro hk
    rw [hmain, hk, if_pos rfl]
    by_cases hg : 0 < st.gopSeq
    · rw [if_pos hg, if_pos hg]; rfl
    · rw [if_neg hg, if_neg hg]; rfl
  · intro hk
    rw [hmain, hk, if_neg (by simp)]
  · rw [processImage_dropped]
    exact hqnil

theorem C6_gop_pointer_pairs_witness :
    testInit.lastFramePfx = testInit.streamPfx ++ [NameComp.seqNo UINT64MAX]
    ∧ (∀ p ∈ testInit.queued, isGopPtr testInit.streamPfx.length p = false)
    ∧ ((processImage testDigestFn testInit
          ⟨5, .encoded ⟨true, [1, 2, 3]⟩ (some [7, 7]) 9 none⟩).1.filter
        (isGopPtr testInit.streamPfx.length))
      = (if (true : Bool) then
          (if 0 < testInit.gopSeq then
            [endGopPacket testInit.streamPfx testInit.gopSeq
              testInit.freshness.gop testInit.lastFramePfx]
           else [])
          ++ [startGopPacket testInit.streamPfx (testInit.gopSeq + 1)
               testInit.freshness.gop
               (testInit.streamPfx ++ [.seqNo testInit.frameSeq])]
         else []) :=
  ⟨rfl, by decide,
   (C6_gop_pointer_pairs testDigestFn testInit 5 ⟨true, [1, 2, 3]⟩
      (some [7, 7]) 9 none (NameComp.seqNo UINT64MAX) rfl (by decide)).1⟩

/-- C7: across any sequence of `processImage` calls, `frameSeq`,
`gopPos` and `gopSeq` start at 0; a published (encoded) frame bumps
`frameSeq` and `gopPos` by exactly 1, and bumps `gopSeq` by 1 iff the
frame is a key frame (so the first key frame takes `gopSeq` from 0 to
1); a dropped frame changes none of the counters and its batch holds
exactly the drained queued packets. -/
theorem C7_sequence_counters :
    (∀ (s : Settings) (basePfx : NdnName) (ms : Nat) (nm : String),
      (initState s basePfx ms nm).frameSeq = 0
      ∧ (initState s basePfx ms nm).gopPos = 0
      ∧ (initState s basePfx ms nm).gopSeq = 0)
    ∧ (∀ (dFn : DataPacket → List Nat) (st : StreamState) (nowNs : Nat)
        (frame : EncodedFrame) (fecOut : Option (List Nat)) (nowMs : Nat)
        (pitTs : Option Nat),
        (processImage dFn st ⟨nowNs, .encoded frame fecOut nowMs pitTs⟩).2.frameSeq
            = st.frameSeq + 1
        ∧ (processImage dFn st ⟨nowNs, .encoded frame fecOut nowMs pitTs⟩).2.gopPos
            = st.gopPos + 1
        ∧ (processImage dFn st ⟨nowNs, .encoded frame fecOut nowMs pitTs⟩).2.gopSeq
            = st.gopSeq + (if frame.isKey then 1 else 0))
    ∧ (∀ (dFn : DataPacket → List Nat) (st : StreamState) (nowNs : Nat),
        (processImage dFn st ⟨nowNs, .dropped⟩).2.frameSeq = st.frameSeq
        ∧ (processImage dFn st ⟨nowNs, .dropped⟩).2.gopPos = st.gopPos
        ∧ (processImage dFn st ⟨nowNs, .dropped⟩).2.gopSeq = st.gopSeq
        ∧ (processImage dFn st ⟨nowNs, .dropped⟩).1 = st.queued) := by
  refine ⟨?_, ?_, ?_⟩
  · intro s basePfx ms nm
    exact ⟨rfl, rfl, rfl⟩
  · intro dFn st nowNs frame fecOut nowMs pitTs
    rw [processImage_encoded_state]
    exact ⟨rfl, rfl, rfl⟩
  · intro dFn st nowNs
    rw [processImage_dropped]
    exact ⟨rfl, rfl, rfl, rfl⟩

/-- C8: every `_latest` reply has freshness `latest`, name
`streamPrefix/_latest/<lastPublishEpochMs>`, and content the delegation
set `{0: lastFramePrefix, 1: lastGopPrefix}`; and a `_latest` reply
generated right after construction (before any frame is published) has
entry 0 equal to the sentinel prefix
`streamPrefix/<seq (uint64_t)-1>`. -/
theorem C8_latest_packet_shape :
    (∀ st : StreamState,
      generateLatestPacket st
        = { name := st.streamPfx
              ++ [.str "_latest", .tstamp st.lastPublishEpochMs]
            freshness := some st.freshness.latest
            finalBlockId := none
            content := .delegations [(0, st.lastFramePfx), (1, st.lastGopPfx)]
            sig := .keychain })
    ∧ (∀ (s : Settings) (basePfx : NdnName) (ms : Nat) (nm : String),
        (generateLatestPacket (initState s basePfx ms nm)).content
          = .delegations
              [(0, (basePfx ++ [.tstamp ms, .str nm]) ++ [.seqNo UINT64MAX]),
               (1, [])]) := by
  refine ⟨fun st => rfl, fun s basePfx ms nm => ?_⟩
  simp [generateLatestPacket, initState]

/-- C10: entry 1 of any `_latest` reply is the publisher's
`lastGopPrefix_` at call time; that prefix is the empty name before any
key frame has been published, and after a key-frame publish it is
`streamPrefix/_gop/<g>` where `g` is `gopSeq` before that key frame's
increment - so after the first key frame entry 1 names `_gop/0` while
the start pointer emitted for that same key frame is published under
`_gop/1/start`. -/
theorem C10_latest_gop_entry :
    (∀ st : StreamState,
      (generateLatestPacket st).content
        = .delegations [(0, st.lastFramePfx), (1, st.lastGopPfx)])
    ∧ (∀ (s : Settings) (basePfx : NdnName) (ms : Nat) (nm : String),
        (initState s basePfx ms nm).lastGopPfx = [])
    ∧ (∀ (dFn : DataPacket → List Nat) (st : StreamState) (nowNs : Nat)
        (frame : EncodedFrame) (fecOut : Option (List Nat)) (nowMs : Nat)
        (pitTs : Option Nat) (c : NameComp),
        st.lastFramePfx = st.streamPfx ++ [c] →
        frame.isKey = true →
        (processImage dFn st ⟨nowNs, .encoded frame fecOut nowMs pitTs⟩).2.lastGopPfx
            = st.streamPfx ++ [.str "_gop", .seqNo st.gopSeq]
        ∧ (st.gopSeq = 0 →
            (processImage dFn st
              ⟨nowNs, .encoded frame fecOut nowMs pitTs⟩).2.lastGopPfx
              = st.streamPfx ++ [.str "_gop", .seqNo 0])
        ∧ startGopPacket st.streamPfx (st.gopSeq + 1) st.freshness.gop
            (st.streamPfx ++ [.seqNo st.frameSeq])
            ∈ (processImage dFn st ⟨nowNs, .encoded frame fecOut nowMs pitTs⟩).1)
    ∧ (∀ (dFn : DataPacket → List Nat) (st : StreamState) (nowNs : Nat)
        (frame : EncodedFrame) (fecOut : Option (List Nat)) (nowMs : Nat)
        (pitTs : Option Nat),
        frame.isKey = false →
        (processImage dFn st ⟨nowNs, .encoded frame fecOut nowMs pitTs⟩).2.lastGopPfx
          = st.lastGopPfx) := by
  refine ⟨fun st => rfl, fun s basePfx ms nm => rfl, ?_, ?_⟩
  · intro dFn st nowNs frame fecOut nowMs pitTs c hpfx hk
    have hdrop : st.lastFramePfx.dropLast = st.streamPfx := by
      rw [hpfx]; exact List.dropLast_concat
    have hgp : (processImage dFn st
        ⟨nowNs, .encoded frame fecOut nowMs pitTs⟩).2.lastGopPfx
        = st.streamPfx ++ [.str "_gop", .seqNo st.gopSeq] := by
      rw [processImage_encoded_state]
      simp [hk, hdrop]
    refine ⟨hgp, fun hg0 => by rw [hgp, hg0], ?_⟩
    rw [processImage_key_gop_packets dFn st nowNs frame fecOut nowMs pitTs c
      hpfx hk]
    simp [List.mem_append]
  · intro dFn st nowNs frame fecOut nowMs pitTs hk
    rw [processImage_encoded_state]
    simp [hk]

theorem C10_latest_gop_entry_witness :
    testInit.lastFramePfx = testInit.streamPfx ++ [NameComp.seqNo UINT64MAX]
    ∧ (true : Bool) = true
    ∧ (processImage testDigestFn testInit
        ⟨5, .encoded ⟨true, [1, 2, 3]⟩ (some [7, 7]) 9 none⟩).2.lastGopPfx
      = testInit.streamPfx ++ [.str "_gop", .seqNo testInit.gopSeq] :=
  ⟨rfl, rfl,
   (C10_latest_gop_entry.2.2.1 testDigestFn testInit 5 ⟨true, [1, 2, 3]⟩
      (some [7, 7]) 9 none (NameComp.seqNo UINT64MAX) rfl rfl).1⟩

end NdnRtc
